import Mathlib

/-!
# Verification of the qedus/appengine in-memory datastore (`memds`)

This file gives a shallow embedding of the in-memory datastore engine found
in `memds/memds.go` together with the key model from `ds/ds.go`, and proves
or refutes the specification claims about it.

Modelling conventions:

* Go `int64` ids and the id counter are modelled as `Int` (no claim exercises
  64-bit overflow).
* `time.Time` property values are modelled as an integer timeline
  (`Before`/`After` are chronological comparison).
* Go `float64` property values are modelled as rationals: every finite float
  is a rational and `<`/`>` on finite floats is numeric comparison.  NaN is
  not modelled.
* Go panics (out-of-range slice indexing, `panic("unknown ... type")`) are
  modelled by `Option`: a function returns `none` exactly when the Go code
  would panic (or, for `Run`, return an error aborting the whole call).
* Go slice aliasing is modelled explicitly at each place the source relies on
  it: `Key.Path` is a Go slice, so copying a `Key` struct copies the slice
  header while sharing the backing array.  Functions of the source that write
  through such shared arrays (`isAncestor`, `AllocateKeys`, key completion in
  `put`) are embedded as functions that return the mutated keys alongside
  their results.
* Struct entities are modelled as a field-name/property-value mapping.  The
  `datastore:"..."` tag machinery of `propertyName` is not exercised by any
  claim; entities are modelled as structs with exported, untagged fields, for
  which `propertyName(field) = field.Name` and `findFieldName` returns the
  requested name iff the field exists.
-/

namespace Memds

/-- A key path-element id: Go stores `int64` or `string` ids inside an
`interface{}`; `nil` (an incomplete id) is represented at the `PathElem`
level by `Option`. -/
inductive Id where
  | int (i : Int)
  | str (s : String)
deriving DecidableEq, Repr

/-- One element of a key path: `struct { Kind string; ID interface{} }`
(`ds/ds.go`).  `id = none` is an incomplete (nil) id. -/
structure PathElem where
  kind : String
  id : Option Id
deriving DecidableEq, Repr

/-- `ds.Key`: a namespace plus a path of (kind, id) elements (`ds/ds.go`). -/
structure Key where
  ns : String
  path : List PathElem
deriving DecidableEq, Repr

/-- The element-comparison loop of `ds.Key.Equal` (`ds/ds.go:55-59`):
`for i, p := range k.Path { if p != key.Path[i] { return false } }`.
The loop indexes `key.Path[i]` for every `i < len(k.Path)`; when `key.Path`
is shorter than `k.Path` and no earlier element differs, Go panics with an
index-out-of-range — modelled by `none`.  Elements of `key.Path` beyond
`len(k.Path)` are never inspected. -/
def pathEqAux : List PathElem → List PathElem → Option Bool
  | [], _ => some true
  | _ :: _, [] => none
  | p :: ps, q :: qs => if p = q then pathEqAux ps qs else some false

/-- `ds.Key.Equal` (`ds/ds.go:51-61`): namespaces must match, then the
element loop above.  Note the source never compares path lengths. -/
def keyEqual (k key : Key) : Option Bool :=
  if k.ns ≠ key.ns then some false else pathEqAux k.path key.path

/-- Replace the id at index `i` of a path by `nil`, keeping the kind —
the effect of the Go assignment `path[i].ID = nil` on the backing array.
Out-of-range writes do not occur at the call sites (guarded by length
checks), so an out-of-range index leaves the path unchanged. -/
def nilIdAt (path : List PathElem) (i : Nat) : List PathElem :=
  match path.get? i with
  | some e => path.set i ⟨e.kind, none⟩
  | none => path

/-- `isAncestor` (`memds/memds.go:552-564`).

```go
if len(parent.Path) > len(child.Path) { return false }
child.Path = child.Path[:len(parent.Path)]
child.Path[len(child.Path)-1].ID = nil
return parent.Equal(child)
```

`child` is passed by value but `child.Path` shares its backing array with
the caller's key, so the `ID = nil` assignment writes through to the
caller's key at index `len(parent.Path)-1`.  The function therefore returns
both the boolean result and the caller-visible mutated key (the full path
with that id nil'd).  When `parent.Path` is empty the re-slice is legal but
the subsequent `child.Path[-1]` indexing panics (`none`). -/
def isAncestorGo (parent child : Key) : Option (Bool × Key) :=
  if parent.path.length > child.path.length then some (false, child)
  else
    match parent.path.length with
    | 0 => none
    | n + 1 =>
      let mutatedPath := nilIdAt child.path n
      let mutated : Key := ⟨child.ns, mutatedPath⟩
      let chopped : Key := ⟨child.ns, mutatedPath.take (n + 1)⟩
      some ((keyEqual parent chopped).getD false, mutated)

/-- A property value, the closed set of indexable value kinds handled by
`compareValues` (`memds/memds.go:267-353`): `int64`, `time.Time`, `bool`,
`string`, `float64` and `ds.Key`. -/
inductive Value where
  | int64 (i : Int)
  | timestamp (t : Int)
  | bool (b : Bool)
  | str (s : String)
  | float64 (q : ℚ)
  | keyRef (k : Key)
deriving DecidableEq, Repr

/-- The type-tag contribution of the left operand in `compareValues`
(`memds/memds.go:271-286`): `int64 → -6`, `time.Time → -5`, `bool → -4`,
`string → -3`, `float64 → -2`, `ds.Key → -1`. -/
def typeOrdLeft : Value → Int
  | .int64 _ => -6
  | .timestamp _ => -5
  | .bool _ => -4
  | .str _ => -3
  | .float64 _ => -2
  | .keyRef _ => -1

/-- The type-tag contribution of the right operand in `compareValues`
(`memds/memds.go:288-303`): the same tags negated (`+6` … `+1`). -/
def typeOrdRight : Value → Int
  | .int64 _ => 6
  | .timestamp _ => 5
  | .bool _ => 4
  | .str _ => 3
  | .float64 _ => 2
  | .keyRef _ => 1

/-- Three-way comparison of two integers, as written repeatedly in the
source (`if l < r { return -1 } else if l > r { return 1 } return 0`). -/
def cmpInt (l r : Int) : Int :=
  if l < r then -1 else if l > r then 1 else 0

/-- `strings.Compare`: byte-lexicographic comparison, which on UTF-8 agrees
with code-point-lexicographic comparison, i.e. `compare` on `String`. -/
def cmpString (l r : String) : Int :=
  match compare l r with
  | .lt => -1
  | .eq => 0
  | .gt => 1

/-- Three-way comparison of two rationals (finite `float64` values under
`<`/`>`). -/
def cmpRat (l r : ℚ) : Int :=
  if l < r then -1 else if l > r then 1 else 0

/-- `compareKeys` (`memds/memds.go:355-442`).

Compares the parent counts (`len(Path)-1`) first: more parents sorts
before.  With equal counts it reads the leaf element `Path[len(Path)-1]` —
a panic (`none`) on an empty path — and compares the leaf id types
(`int64` before `string`, a nil id panics with "unknown ID type"), then the
id values, and on a tie recurses into the parents (`Path[:len(Path)-1]`)
when `len(left.Path) > 1`, else returns 0.  Namespaces and kinds are never
inspected. -/
def compareKeys (left right : Key) : Option Int :=
  if left.path.length > right.path.length then some (-1)
  else if left.path.length < right.path.length then some 1
  else
    match left.path.getLast?, right.path.getLast? with
    | some le, some re =>
      match le.id, re.id with
      | some (.int l), some (.int r) =>
        if l < r then some (-1)
        else if l > r then some 1
        else if left.path.length > 1 then
          compareKeys ⟨left.ns, left.path.dropLast⟩ ⟨right.ns, right.path.dropLast⟩
        else some 0
      | some (.str l), some (.str r) =>
        if cmpString l r ≠ 0 then some (cmpString l r)
        else if left.path.length > 1 then
          compareKeys ⟨left.ns, left.path.dropLast⟩ ⟨right.ns, right.path.dropLast⟩
        else some 0
      | some (.int _), some (.str _) => some (-1)
      | some (.str _), some (.int _) => some 1
      | _, _ => none
    | _, _ => none
termination_by left.path.length
decreasing_by
  all_goals simp_all [List.length_dropLast]; omega

/-- `compareValues` (`memds/memds.go:267-353`): compare the type tags first
(`comp = typeOrdLeft + typeOrdRight`, negative/positive deciding), then
within one kind compare payloads; `ds.Key` payloads go through
`compareKeys` (which can panic, `none`). -/
def compareValues (left right : Value) : Option Int :=
  let comp := typeOrdLeft left + typeOrdRight right
  if comp < 0 then some (-1)
  else if comp > 0 then some 1
  else
    match left, right with
    | .bool l, .bool r => some (if !l && r then -1 else if l && !r then 1 else 0)
    | .str l, .str r => some (cmpString l r)
    | .int64 l, .int64 r => some (cmpInt l r)
    | .float64 l, .float64 r => some (cmpRat l r)
    | .keyRef l, .keyRef r => compareKeys l r
    | .timestamp l, .timestamp r => some (cmpInt l r)
    | _, _ => none

/-- The five filter operators of `ds.FilterOp` (`ds/ds.go:89-106`). -/
inductive FilterOp where
  | eq | lt | le | gt | ge
deriving DecidableEq, Repr

/-- `isComparisonTrue` (`memds/memds.go:566-585`): evaluate the three-way
comparison, then test it against the operator. -/
def isComparisonTrue (left : Value) (op : FilterOp) (right : Value) : Option Bool :=
  (compareValues left right).map fun (comp : Int) =>
    match op with
    | .lt => comp < 0
    | .le => comp ≤ 0
    | .eq => comp = 0
    | .ge => comp ≥ 0
    | .gt => comp > 0

/-- A stored property: either a scalar value or an indexable slice of
values.  `array` models a Go slice whose element type is not `uint8`
(`isIndexableSlice`, `memds/memds.go:587-595`); `[]byte` properties, which
that function treats as scalars, are not exercised by any claim. -/
inductive PropValue where
  | single (v : Value)
  | array (vs : List Value)
deriving DecidableEq, Repr

/-- A struct entity, modelled as its exported, untagged fields: a mapping
from field name to property value.  For such structs `propertyName`
(`memds/memds.go:808-829`) returns the field name itself, so both
`findFieldName` and reflection's `FieldByName` reduce to this lookup. -/
structure Entity where
  fields : List (String × PropValue)
deriving DecidableEq, Repr

/-- Field lookup by name (first match), modelling `FieldByName` /
`findFieldName` on an entity of the shape above. -/
def findField (e : Entity) (name : String) : Option PropValue :=
  (e.fields.find? fun f => f.1 = name).map (·.2)

/-- `keyEntity` (`memds/memds.go:27-30`): one stored record. -/
structure KeyEntity where
  key : Key
  entity : Entity
deriving DecidableEq, Repr

/-- `memDs` (`memds/memds.go:39-42`): the store is a flat slice of records
plus the id counter. -/
structure MemDs where
  keyEntities : List KeyEntity
  lastIntID : Int
deriving DecidableEq, Repr

/-- `memDs.nextIntID` (`memds/memds.go:53-56`): increment and return the
counter. -/
def nextIntID (mds : MemDs) : Int × MemDs :=
  (mds.lastIntID + 1, { mds with lastIntID := mds.lastIntID + 1 })

/-- `memDs.findKeyEntity` (`memds/memds.go:125-132`): linear scan using
`Key.Equal`, returning the first matching record's entity.  (The Go
function returns `&ke`, a pointer to the `range` loop's copy of the slice
element, so writes through the returned pointer never reach the store —
see `putOne`.)  `none` models a panic inside `Equal`. -/
def findKeyEntityGo : List KeyEntity → Key → Option (Option Entity)
  | [], _ => some none
  | ke :: rest, key =>
    match keyEqual ke.key key with
    | none => none
    | some true => some (some ke.entity)
    | some false => findKeyEntityGo rest key

/-- The lookup performed by `memDs.get` (`memds/memds.go:109-123`) for one
key: found entity, not-found, or panic.  The reflection plumbing that
copies the found entity into the caller's struct pointer is not modelled;
a `Get` destination of valid shape receives exactly this entity. -/
def getOne (mds : MemDs) (key : Key) : Option (Option Entity) :=
  findKeyEntityGo mds.keyEntities key

/-- The dynamic shape of one element of the `entities` argument as seen by
reflection in `put` (`memds/memds.go:201-214`): a struct value, a pointer
to a struct (`none` = nil pointer), or anything else. -/
inductive EntityArg where
  | structV (e : Entity)
  | ptrV (e : Option Entity)
  | otherV
deriving DecidableEq, Repr

/-- The dynamic shape of the whole `entities interface{}` argument as seen
by `verifyKeysValues` (`memds/memds.go:134-170`): `[]S` for a struct `S`,
`[]*S`, `[]interface{}` (whose elements have arbitrary shapes), a slice of
some non-struct non-struct-pointer element type, or not a slice at all. -/
inductive EntitiesArg where
  | sliceStructs (l : List Entity)
  | slicePtrs (l : List (Option Entity))
  | sliceIface (l : List EntityArg)
  | sliceOther (n : Nat)
  | notSlice
deriving DecidableEq, Repr

/-- `values.Len()` for the entities argument (0 when not a slice — the Go
code never reaches `Len` in that case). -/
def entitiesLen : EntitiesArg → Nat
  | .sliceStructs l => l.length
  | .slicePtrs l => l.length
  | .sliceIface l => l.length
  | .sliceOther n => n
  | .notSlice => 0

/-- `values.Index(i)` for each index, as the per-element shapes `put`
receives. -/
def toEntityArgs : EntitiesArg → List EntityArg
  | .sliceStructs l => l.map .structV
  | .slicePtrs l => l.map .ptrV
  | .sliceIface l => l
  | .sliceOther n => List.replicate n .otherV
  | .notSlice => []

/-- The per-element check of `verifyKeysValues`'s interface case
(`memds/memds.go:154-166`): the interface value must be a non-nil pointer
to a struct (a nil `*S` stored in an `interface{}` fails because its
`Elem().Elem()` is invalid). -/
def entShapeOk : EntityArg → Bool
  | .ptrV (some _) => true
  | _ => false

/-- `verifyKeysValues` (`memds/memds.go:134-170`): entities must be a
slice; lengths must agree; the element type must be a struct, a pointer to
struct, or an interface whose every element passes `entShapeOk`.  Note the
`[]*S` case checks only the static element type, so nil pointers in a
`[]*S` pass verification. -/
def verifyKeysValues (keys : List Key) (ents : EntitiesArg) : Option String :=
  match ents with
  | .notSlice => some "entities not a slice"
  | _ =>
    if keys.length ≠ entitiesLen ents then
      some "keys length not same as entities length"
    else
      match ents with
      | .sliceStructs _ => none
      | .slicePtrs _ => none
      | .sliceIface l =>
        if l.all entShapeOk then none
        else some "interface slice does not contain struct pointers"
      | .sliceOther _ => some "entities not structs or pointers"
      | .notSlice => some "entities not a slice"

/-- The entity-shape switch of `put` (`memds/memds.go:201-214`): a pointer
is dereferenced and must yield a struct (a nil pointer dereferences to an
invalid value and errors), a struct value is accepted, anything else
errors. -/
def extractEntity : EntityArg → Option Entity
  | .structV e => some e
  | .ptrV (some e) => some e
  | .ptrV none => none
  | .otherV => none

/-- Overwrite the leaf id of a (non-empty) path, as the Go assignment
`key.Path[len(key.Path)-1].ID = v` does through the backing array. -/
def setLeafId (path : List PathElem) (v : Option Id) : List PathElem :=
  match path.getLast? with
  | none => path
  | some leaf => path.set (path.length - 1) ⟨leaf.kind, v⟩

/-- `memDs.put` (`memds/memds.go:193-239`) for one key/entity pair.

Order of effects follows the source: the leaf id is completed from the
counter first (panicking, `none`, on an empty path), the entity shape is
checked next (an error here therefore still leaves the counter advanced),
and finally the record is inserted if no record with an `Equal` key exists.
The "key already exists" branch assigns to `ke.entity` where `ke` is the
pointer `findKeyEntity` returned to its own loop-variable copy, so an
existing record is NOT updated — the store is unchanged on that branch.
The field-zeroing loop over `datastore:"-"` tags never fires for the
untagged entities modelled here. -/
def putOne (mds : MemDs) (key : Key) (ent : EntityArg) :
    Option (MemDs × Except String Key) :=
  match key.path.getLast? with
  | none => none
  | some leaf =>
    let completed :=
      if leaf.id = none then
        let (id, m) := nextIntID mds
        (Key.mk key.ns (setLeafId key.path (some (.int id))), m)
      else (key, mds)
    let key1 := completed.1
    let mds1 := completed.2
    match extractEntity ent with
    | none => some (mds1, .error "memds: entity not struct or struct pointer")
    | some e =>
      match findKeyEntityGo mds1.keyEntities key1 with
      | none => none
      | some (some _) => some (mds1, .ok key1)
      | some none =>
        some ({ mds1 with keyEntities := mds1.keyEntities ++ [⟨key1, e⟩] }, .ok key1)

/-- The loop of `memDs.Put` (`memds/memds.go:180-188`): run `put` per pair,
returning the first error (with whatever state mutations already
happened), else the completed keys in order. -/
def putAll (mds : MemDs) : List (Key × EntityArg) → Option (MemDs × Except String (List Key))
  | [] => some (mds, .ok [])
  | (k, a) :: rest =>
    (putOne mds k a).bind fun r =>
      match r.2 with
      | .error e => some (r.1, .error e)
      | .ok ck => (putAll r.1 rest).map fun r2 => (r2.1, r2.2.map (ck :: ·))

/-- `memDs.Put` (`memds/memds.go:172-191`): validate, then run the per-pair
loop.  A validation failure returns the error with the store untouched. -/
def PutGo (mds : MemDs) (keys : List Key) (ents : EntitiesArg) :
    Option (MemDs × Except String (List Key)) :=
  match verifyKeysValues keys ents with
  | some e => some (mds, .error e)
  | none => putAll mds (keys.zip (toEntityArgs ents))

/-- `memDs.del` (`memds/memds.go:251-264`): remove the first record whose
key `Equal`s the argument; removing a missing key is a no-op. -/
def delOne : List KeyEntity → Key → Option (List KeyEntity)
  | [], _ => some []
  | ke :: rest, key =>
    match keyEqual ke.key key with
    | none => none
    | some true => some rest
    | some false => (delOne rest key).map (ke :: ·)

/-- `memDs.Delete` (`memds/memds.go:241-249`): `del` for each key in
order. -/
def DeleteGo (mds : MemDs) : List Key → Option MemDs
  | [] => some mds
  | key :: rest =>
    (delOne mds.keyEntities key).bind fun kes =>
      DeleteGo { mds with keyEntities := kes } rest

/-- `memDs.AllocateKeys` (`memds/memds.go:520-530`).

```go
lastPathElement := len(parent.Path) - 1
keys := make([]ds.Key, n)
for i := range keys {
    keys[i] = parent
    keys[i].Path[lastPathElement].ID = mds.nextIntID()
}
```

`keys[i] = parent` copies the struct, so every `keys[i].Path` — and the
caller's `parent.Path` — is the same slice header over ONE shared backing
array.  Each iteration's assignment overwrites the same leaf slot, so
after the loop all `n` returned keys (and the caller's parent) carry the
final id `lastIntID + n`, while the counter has advanced by `n`.  The
function returns `(keys, caller-visible parent, store)`.  With `n = 0` the
loop body never runs; with `n ≥ 1` and an empty parent path the indexing
panics (`none`). -/
def AllocateKeysGo (mds : MemDs) (parent : Key) (n : Nat) :
    Option (List Key × Key × MemDs) :=
  if n = 0 then some ([], parent, mds)
  else
    match parent.path.getLast? with
    | none => none
    | some _ =>
      let finalID := mds.lastIntID + n
      let mutParent := Key.mk parent.ns (setLeafId parent.path (some (.int finalID)))
      some (List.replicate n mutParent, mutParent, { mds with lastIntID := finalID })

/-- `ds.OrderDir` (`ds/ds.go:116-124`): ascending (`""`) or descending
(`"-"`). -/
inductive OrderDir where
  | asc | desc
deriving DecidableEq, Repr

/-- `ds.Order` (`ds/ds.go:128-131`). -/
structure Order where
  name : String
  dir : OrderDir
deriving DecidableEq, Repr

/-- `ds.Filter` (`ds/ds.go:109-113`).  The `Value interface{}` field is
modelled as an already-typed property value; Go's plain `int`, which
`validateFilterValue` accepts but `compareValues` panics on, is not
representable here and not exercised by any claim. -/
structure Filter where
  name : String
  op : FilterOp
  value : Value
deriving DecidableEq, Repr

/-- `ds.Query` (`ds/ds.go:139-147`), with the root key field named `Root`
as `memds` reads it. -/
structure Query where
  root : Key
  keysOnly : Bool
  orders : List Order
  filters : List Filter
deriving DecidableEq, Repr

/-- `validateFilterValue` (`memds/memds.go:687-694`): only `int`, `int64`,
`float64` and `string` filter values are accepted. -/
def validateFilterValue : Value → Bool
  | .int64 _ => true
  | .float64 _ => true
  | .str _ => true
  | _ => false

/-- The element loop of the slice-filter branch of `Run`
(`memds/memds.go:646-658`): pass as soon as one element satisfies the
comparison (Go `break`s there, so elements after the first hit are never
compared), fail if none does; a panic in a compared element propagates. -/
def anyComparison (vs : List Value) (op : FilterOp) (value : Value) : Option Bool :=
  match vs with
  | [] => some false
  | v :: rest =>
    (isComparisonTrue v op value).bind fun b =>
      if b then some true else anyComparison rest op value

/-- One filter evaluated against one record inside `Run`'s loop
(`memds/memds.go:621-664`), given the record's key as it stands at that
point (after `isAncestor`'s write-through).  Returns whether the filter
passes; `none` models both the `validateFilterValue` error return and a
comparison panic, each of which aborts the whole `Run`.  A filter naming
`"__key__"` compares against the key; a filter naming an absent field is
skipped (passes). -/
def applyFilter (key : Key) (ent : Entity) (f : Filter) : Option Bool :=
  if !validateFilterValue f.value then none
  else
    match (if f.name = "__key__" then some (PropValue.single (Value.keyRef key))
           else findField ent f.name) with
    | none => some true
    | some (.single v) => isComparisonTrue v f.op f.value
    | some (.array vs) => anyComparison vs f.op f.value

/-- All filters of a query evaluated against one record, AND-ed.  The
source marks the record for removal but keeps evaluating the remaining
filters, so every filter is evaluated (and can still panic) even after one
has failed. -/
def applyFilters (key : Key) (ent : Entity) : List Filter → Option Bool
  | [] => some true
  | f :: fs =>
    (applyFilter key ent f).bind fun p =>
      (applyFilters key ent fs).map fun ps => p && ps

/-- The body of `Run`'s per-record loop (`memds/memds.go:602-665`) for one
record: namespace check, then the kind check — where an EMPTY root leaf
kind `continue`s the loop, skipping the ancestor check and every filter
for this record — then `isAncestor` (whose id-nil write-through to the
stored key is captured in the returned record) and the filters (evaluated
against the mutated key).  Returns `(removed?, record as left in the
store)`. -/
def runCheckEntity (root : Key) (filters : List Filter) (ke : KeyEntity) :
    Option (Bool × KeyEntity) :=
  match root.path.getLast?, ke.key.path.getLast? with
  | some rootLeaf, some keyLeaf =>
    let r0 := root.ns != ke.key.ns
    if rootLeaf.kind = "" then some (r0, ke)
    else
      (isAncestorGo root ke.key).bind fun (anc, mutKey) =>
        (applyFilters mutKey ke.entity filters).map fun pass =>
          (r0 || (keyLeaf.kind != rootLeaf.kind) || !anc || !pass,
           ⟨mutKey, ke.entity⟩)
  | _, _ => none

/-- `keyEntitySorter.Less` (`memds/memds.go:457-518`): walk the order
clauses; a `"__key__"` clause compares keys with `compareKeys`, a property
clause resolves the field on both records — a record missing the field
compares as `nil`: both missing stops the whole comparison with `false`,
left-missing returns `true`, right-missing returns `false` — otherwise
`compareValues` decides (a slice-valued property reaches `compareValues`'
default branch: panic, `none`); ties fall through to the next clause and
`false` results if all clauses tie. -/
def sorterLess (orders : List Order) (lke rke : KeyEntity) : Option Bool :=
  match orders with
  | [] => some false
  | o :: rest =>
    if o.name = "__key__" then
      (compareKeys lke.key rke.key).bind fun c =>
        if c < 0 then some (o.dir == OrderDir.asc)
        else if c > 0 then some (o.dir == OrderDir.desc)
        else sorterLess rest lke rke
    else
      match findField lke.entity o.name, findField rke.entity o.name with
      | none, none => some false
      | none, some _ => some true
      | some _, none => some false
      | some lv, some rv =>
        match lv, rv with
        | .single l, .single r =>
          (compareValues l r).bind fun c =>
            if c < 0 then some (o.dir == OrderDir.asc)
            else if c > 0 then some (o.dir == OrderDir.desc)
            else sorterLess rest lke rke
        | _, _ => none

/-- Insert into a sorted list by a possibly-panicking strict comparison. -/
def insertOpt (less : KeyEntity → KeyEntity → Option Bool) (x : KeyEntity) :
    List KeyEntity → Option (List KeyEntity)
  | [] => some [x]
  | y :: ys =>
    (less x y).bind fun b =>
      if b then some (x :: y :: ys) else (insertOpt less x ys).map (y :: ·)

/-- `sort.Sort` over the surviving records.  Go's sort is an unspecified
comparison sort; it is modelled as insertion sort, which agrees with any
correct comparison sort whenever `less` induces a strict total order on
the input (the case in every concrete scenario proved below) and preserves
membership in general. -/
def sortOpt (less : KeyEntity → KeyEntity → Option Bool) :
    List KeyEntity → Option (List KeyEntity)
  | [] => some []
  | x :: xs => (sortOpt less xs).bind (insertOpt less x)

/-- `memDs.Run` (`memds/memds.go:597-685`): evaluate the per-record checks
over the store (any error/panic aborts the call), keep the surviving
records in store order, sort them by the query's orders, and return the
store as the loop left it — including the key mutations `isAncestor` wrote
through — together with the materialized result list. -/
def RunGo (mds : MemDs) (q : Query) : Option (MemDs × List KeyEntity) :=
  (mds.keyEntities.mapM (runCheckEntity q.root q.filters)).bind fun checked =>
    let survivors := (checked.filter fun c => !c.1).map (·.2)
    (sortOpt (sorterLess q.orders) survivors).map fun sorted =>
      ({ mds with keyEntities := checked.map (·.2) }, sorted)

/-- The keys yielded by successive `iterator.Next` calls of a keys-only
run (`memds/memds.go:703-734`): the sorted records' keys in order. -/
def runKeysOnly (mds : MemDs) (q : Query) : Option (List Key) :=
  (RunGo mds q).map fun r => r.2.map (·.key)

/-- One mutating operation a transaction body issues against the
transactional view (`txDs`, `memds/memds.go:754-797`). -/
inductive TxOp where
  | putOp (keys : List Key) (ents : EntitiesArg)
  | delOp (keys : List Key)
deriving DecidableEq, Repr

/-- A transaction body, abstracted to the mutating operations it enqueues
(in order) and the error it finally returns (`none` = success).  A Go body
that fails midway corresponds to the ops it had enqueued before failing. -/
structure TxBody where
  ops : List TxOp
  result : Option String
deriving DecidableEq, Repr

/-- The key-completion loop of `txDs.Put` (`memds/memds.go:774-781`):
incomplete leaf ids are completed immediately from the LIVE store's
counter, before commit; an empty-path key panics. -/
def txCompleteKeys (mds : MemDs) : List Key → Option (MemDs × List Key)
  | [] => some (mds, [])
  | k :: rest =>
    match k.path.getLast? with
    | none => none
    | some leaf =>
      let completed :=
        if leaf.id = none then
          let (id, m) := nextIntID mds
          (Key.mk k.ns (setLeafId k.path (some (.int id))), m)
        else (k, mds)
      (txCompleteKeys completed.2 rest).map fun r => (r.1, completed.1 :: r.2)

/-- Running the body against the transactional view: each `Put` completes
its keys against the live counter and appends a mutator carrying the
completed keys; each `Delete` appends a mutator unchanged.  The records of
the live store are untouched. -/
def enqueueOps (mds : MemDs) : List TxOp → Option (MemDs × List TxOp)
  | [] => some (mds, [])
  | .putOp keys ents :: rest =>
    (txCompleteKeys mds keys).bind fun r =>
      (enqueueOps r.1 rest).map fun r2 => (r2.1, .putOp r.2 ents :: r2.2)
  | .delOp keys :: rest =>
    (enqueueOps mds rest).map fun r2 => (r2.1, .delOp keys :: r2.2)

/-- The commit loop of `RunInTransaction` (`memds/memds.go:746-750`):
replay the queued mutators in order against the live store, stopping at
the first error. -/
def applyMutators (mds : MemDs) : List TxOp → Option (MemDs × Option String)
  | [] => some (mds, none)
  | .putOp keys ents :: rest =>
    (PutGo mds keys ents).bind fun r =>
      match r.2 with
      | .error e => some (r.1, some e)
      | .ok _ => applyMutators r.1 rest
  | .delOp keys :: rest =>
    (DeleteGo mds keys).bind fun m => applyMutators m rest

/-- `memDs.RunInTransaction` (`memds/memds.go:736-752`): run the body
against the transactional view; if the body returns an error, return it
without replaying the queue (the key completions' counter draws have
already happened); otherwise replay the queue.  Returns the final store
and the call's returned error. -/
def RunInTransactionGo (mds : MemDs) (body : TxBody) :
    Option (MemDs × Option String) :=
  (enqueueOps mds body.ops).bind fun r =>
    match body.result with
    | some e => some (r.1, some e)
    | none => applyMutators r.1 r.2

/-! ## Specification-side definitions

The following definitions are written from the specification's words, to be
compared against the source-derived definitions above. -/

/-- The ancestor predicate as the specification words it: same namespace,
`len(candidate.path) >= len(ancestor.path)`, every element of the candidate
truncated to the ancestor's length equal to the ancestor's element — except
that an Incomplete ancestor leaf id matches any candidate id at that level,
while a complete ancestor leaf id must match the candidate's id at that
level exactly. -/
def specIsAncestor (a c : Key) : Bool :=
  match a.path.getLast? with
  | none => a.ns == c.ns && a.path.length ≤ c.path.length
  | some leaf =>
    a.ns == c.ns && a.path.length ≤ c.path.length &&
    c.path.take (a.path.length - 1) == a.path.dropLast &&
    (match c.path.get? (a.path.length - 1) with
     | none => false
     | some ce => ce.kind == leaf.kind && (leaf.id == none || ce.id == leaf.id))

/-- The kind-precedence rank of the specification's fixed cross-kind order
`Int64 < Timestamp < Bool < String < Float64 < KeyRef`. -/
def kindRank : Value → Nat
  | .int64 _ => 1
  | .timestamp _ => 2
  | .bool _ => 3
  | .str _ => 4
  | .float64 _ => 5
  | .keyRef _ => 6

/-- The value comparator as the specification words it: values of different
kinds ordered by the fixed kind precedence; within one kind, numeric /
chronological comparison for Int64, Float64 and Timestamp, lexicographic
comparison for String, `false < true` for Bool, and key comparison for
KeyRef. -/
def specCompareValues (l r : Value) : Option Int :=
  if kindRank l < kindRank r then some (-1)
  else if kindRank r < kindRank l then some 1
  else
    match l, r with
    | .int64 a, .int64 b => some (cmpInt a b)
    | .timestamp a, .timestamp b => some (cmpInt a b)
    | .bool a, .bool b => some (cmpInt (if a then 1 else 0) (if b then 1 else 0))
    | .str a, .str b => some (cmpString a b)
    | .float64 a, .float64 b => some (cmpRat a b)
    | .keyRef a, .keyRef b => compareKeys a b
    | _, _ => none

/-- `parent()` of the specification's key model: none when the path length
is at most 1. -/
def specParent (k : Key) : Option Key :=
  if k.path.length ≤ 1 then none else some ⟨k.ns, k.path.dropLast⟩

/-- A key's parent is one path element shorter, and exists only for paths
of length at least 2. -/
theorem specParent_length {k p : Key} (h : specParent k = some p) :
    p.path.length + 1 = k.path.length ∧ 1 < k.path.length := by
  unfold specParent at h
  split at h
  · exact absurd h (by simp)
  · cases h
    simp only [List.length_dropLast]
    omega

/-- The key whose parent pair the tie case recurses into: under
`1 < k.path.length` this is exactly `(specParent k).get`. -/
theorem specParent_of_gt {k : Key} (h : 1 < k.path.length) :
    specParent k = some ⟨k.ns, k.path.dropLast⟩ := by
  unfold specParent
  rw [if_neg (by omega)]

/-- Keys of path length at most 1 have no parent. -/
theorem specParent_of_le {k : Key} (h : k.path.length ≤ 1) :
    specParent k = none := by
  unfold specParent
  rw [if_pos h]

/-- The key comparator as the specification words it: compare
ancestor-chain depth first (more ancestors sorts before fewer); at equal
depth compare leaf id types with `Int64 < String` precedence; with equal
types compare the id values numerically or lexicographically; on an exact
tie recurse into the respective parents — `⟨k.ns, k.path.dropLast⟩` is
`specParent k` by `specParent_of_gt`, and since the depths are equal here,
`1 < l.path.length` fails exactly when NEITHER key has a parent
(`specParent_of_le`), terminating as equal.  Keys whose leaf id is missing
(empty path or Incomplete id) are outside the specification's domain
(`none`). -/
def specCompareKeys (l r : Key) : Option Int :=
  -- a key's ancestor-chain depth is `len(path) - 1`, so comparing depths
  -- is comparing path lengths
  if l.path.length > r.path.length then some (-1)
  else if l.path.length < r.path.length then some 1
  else
    match l.path.getLast?, r.path.getLast? with
    | some ⟨_, some lid⟩, some ⟨_, some rid⟩ =>
      match lid, rid with
      | .int a, .int b =>
        if cmpInt a b ≠ 0 then some (cmpInt a b)
        else if 1 < l.path.length then
          specCompareKeys ⟨l.ns, l.path.dropLast⟩ ⟨r.ns, r.path.dropLast⟩
        else some 0
      | .str a, .str b =>
        if cmpString a b ≠ 0 then some (cmpString a b)
        else if 1 < l.path.length then
          specCompareKeys ⟨l.ns, l.path.dropLast⟩ ⟨r.ns, r.path.dropLast⟩
        else some 0
      | .int _, .str _ => some (-1)
      | .str _, .int _ => some 1
    | _, _ => none
termination_by l.path.length
decreasing_by
  all_goals
    simp only [List.length_dropLast]
    omega

/-- The ancestor predicate as the source actually behaves (the amended
form of the spec's wording): same namespace, candidate path at least as
long, candidate truncated to the ancestor's length equal to the ancestor
on all elements before the leaf, equal leaf kinds — and the ancestor's
leaf id must be Incomplete; a complete ancestor leaf id NEVER matches,
because `isAncestor` nils the truncated candidate's leaf id before the
structural comparison. -/
def specIsAncestorAmended (a c : Key) : Bool :=
  match a.path.getLast? with
  | none => false
  | some leaf =>
    a.ns == c.ns && a.path.length ≤ c.path.length &&
    c.path.take (a.path.length - 1) == a.path.dropLast &&
    ((c.path.get? (a.path.length - 1)).map PathElem.kind == some leaf.kind) &&
    leaf.id == none

/-! ## Helper lemmas -/

theorem pathEqAux_some_true :
    ∀ {xs ys : List PathElem}, xs.length = ys.length →
      (pathEqAux xs ys = some true ↔ xs = ys) := by
  intro xs
  induction xs with
  | nil =>
    intro ys h
    cases ys with
    | nil => simp [pathEqAux]
    | cons q qs => simp at h
  | cons p ps ih =>
    intro ys h
    cases ys with
    | nil => simp at h
    | cons q qs =>
      simp only [pathEqAux]
      by_cases hpq : p = q
      · subst hpq
        simp only [if_pos rfl, List.cons.injEq, true_and]
        exact ih (by simpa using h)
      · simp [hpq]

theorem take_succ_set :
    ∀ (l : List PathElem) (n : Nat) (e : PathElem), n < l.length →
      (l.set n e).take (n + 1) = l.take n ++ [e] := by
  intro l
  induction l with
  | nil => intro n e h; simp at h
  | cons x xs ih =>
    intro n e h
    cases n with
    | zero => simp
    | succ m =>
      simp only [List.set_cons_succ, List.take_succ_cons, List.cons_append,
        List.cons.injEq, true_and]
      exact ih m e (by simpa using h)

theorem concat_eq_concat_iff {xs ys : List PathElem} {x y : PathElem} :
    xs ++ [x] = ys ++ [y] ↔ xs = ys ∧ x = y := by
  constructor
  · intro h
    have h1 : (xs ++ [x]).dropLast = (ys ++ [y]).dropLast := by rw [h]
    have h2 : (xs ++ [x]).getLast? = (ys ++ [y]).getLast? := by rw [h]
    simp [List.dropLast_concat, List.getLast?_concat] at h1 h2
    exact ⟨h1, h2⟩
  · rintro ⟨rfl, rfl⟩; rfl

/-! ## C1: the ancestor check -/

/-- C1 (counterexample): the claim states that a complete leaf id on the
ancestor matches the candidate's id at that level exactly, so
`isAncestor(A, A)` for the complete single-element key
`A = {ns, [("K", 1)]}` would have to be true (`specIsAncestor`, the
claim's wording, says so); the source returns false, because it nils the
truncated candidate's leaf id before comparing it with `A`, whose own leaf
id is not nil. -/
theorem isAncestor_complete_leaf_counterexample :
    specIsAncestor ⟨"ns", [⟨"K", some (.int 1)⟩]⟩ ⟨"ns", [⟨"K", some (.int 1)⟩]⟩ = true ∧
    (isAncestorGo ⟨"ns", [⟨"K", some (.int 1)⟩]⟩ ⟨"ns", [⟨"K", some (.int 1)⟩]⟩).map
      Prod.fst = some false := by
  exact ⟨rfl, rfl⟩

/-- C1 (amended): `isAncestor(A, C)` returns true iff `C.Namespace` equals
`A.Namespace`, `len(C.Path) >= len(A.Path)`, every path element of `C`
truncated to `len(A.Path)` equals the corresponding element of `A` except
at the leaf, where the kinds must agree and `A`'s leaf id must be
Incomplete (nil) — an Incomplete leaf id on `A` matches any id at that
level, while a complete leaf id on `A` never matches. -/
theorem isAncestor_iff_amended_spec (a c : Key) :
    (isAncestorGo a c).map Prod.fst = some true ↔ specIsAncestorAmended a c = true := by
  by_cases hlen : a.path.length > c.path.length
  · -- too-long ancestor: both sides false
    unfold isAncestorGo specIsAncestorAmended
    rw [if_pos hlen]
    cases hLast : a.path.getLast? with
    | none => simp
    | some leaf =>
      simp only [Option.map_some, Option.some.injEq, Bool.and_eq_true, decide_eq_true_eq]
      constructor
      · intro h; cases h
      · intro h; omega
  · push_neg at hlen
    cases hpa : a.path with
    | nil =>
      -- empty ancestor path: the source panics, the amended condition is false
      unfold isAncestorGo specIsAncestorAmended
      rw [if_neg (by omega)]
      simp [hpa]
    | cons p0 prest =>
      have hALen : a.path.length = prest.length + 1 := by rw [hpa]; simp
      have hnz : a.path ≠ [] := by rw [hpa]; simp
      obtain ⟨leaf, hLast⟩ : ∃ leaf, a.path.getLast? = some leaf :=
        ⟨a.path.getLast hnz, List.getLast?_eq_getLast a.path hnz⟩
      have hidx : prest.length < c.path.length := by omega
      obtain ⟨ce, hce⟩ : ∃ ce, c.path.get? prest.length = some ce :=
        ⟨c.path.get ⟨prest.length, hidx⟩, List.get?_eq_get hidx⟩
      -- reduce the source side
      have hmut : nilIdAt c.path prest.length = c.path.set prest.length ⟨ce.kind, none⟩ := by
        unfold nilIdAt; rw [hce]
      have hchop : (nilIdAt c.path prest.length).take (prest.length + 1) =
          c.path.take prest.length ++ [⟨ce.kind, none⟩] := by
        rw [hmut]; exact take_succ_set c.path prest.length ⟨ce.kind, none⟩ hidx
      have hsrc : isAncestorGo a c =
          some ((keyEqual a ⟨c.ns, c.path.take prest.length ++ [⟨ce.kind, none⟩]⟩).getD false,
            ⟨c.ns, nilIdAt c.path prest.length⟩) := by
        unfold isAncestorGo
        rw [if_neg (by omega)]
        simp only [hALen, hchop]
      rw [hsrc]
      -- reduce the spec side
      unfold specIsAncestorAmended
      rw [hLast]
      simp only [hALen, Nat.add_sub_cancel, hce, Option.map_some, Option.some.injEq,
        Bool.and_eq_true, beq_iff_eq, decide_eq_true_eq]
      -- now relate the `Equal` comparison with the element-wise conditions
      have hlens : a.path.length = (c.path.take prest.length ++ [(⟨ce.kind, none⟩ : PathElem)]).length := by
        simp [List.length_take]
        omega
      constructor
      · intro h
        have hkey : keyEqual a ⟨c.ns, c.path.take prest.length ++ [⟨ce.kind, none⟩]⟩ = some true := by
          cases hk : keyEqual a ⟨c.ns, c.path.take prest.length ++ [⟨ce.kind, none⟩]⟩ with
          | none => rw [hk] at h; simp at h
          | some b => rw [hk] at h; simp at h; simp [h]
        unfold keyEqual at hkey
        split at hkey
        · simp at hkey
        · rename_i hns
          have hns' : a.ns = c.ns := by simpa using hns
          have hpq := (pathEqAux_some_true hlens).mp hkey
          -- decompose a.path = prefix ++ [leaf]
          have hsplit : a.path.dropLast ++ [leaf] = a.path :=
            List.dropLast_append_getLast? leaf hLast
          rw [← hsplit] at hpq
          obtain ⟨hpre, hleaf⟩ := concat_eq_concat_iff.mp hpq
          refine ⟨⟨⟨⟨hns', by omega⟩, hpre.symm⟩, ?_⟩, ?_⟩
          · rw [hleaf]; rfl
          · rw [hleaf]
      · rintro ⟨⟨⟨⟨hns', _⟩, hpre⟩, hkind⟩, hid⟩
        have hleaf : leaf = (⟨ce.kind, none⟩ : PathElem) := by
          cases leaf with
          | mk k i => simp at hkind hid; simp [hkind, hid]
        have hsplit : a.path.dropLast ++ [leaf] = a.path :=
          List.dropLast_append_getLast? leaf hLast
        have hpq : a.path = c.path.take prest.length ++ [(⟨ce.kind, none⟩ : PathElem)] := by
          rw [← hsplit, hpre, hleaf]
        have hkey : keyEqual a ⟨c.ns, c.path.take prest.length ++ [⟨ce.kind, none⟩]⟩ = some true := by
          unfold keyEqual
          rw [if_neg (by simpa using hns')]
          exact (pathEqAux_some_true hlens).mpr hpq
        rw [hkey]
        simp

/-! ## C8: the key comparator -/

theorem compareKeys_eq_spec_aux :
    ∀ (n : Nat) (l r : Key), l.path.length ≤ n →
      compareKeys l r = specCompareKeys l r := by
  intro n
  induction n with
  | zero =>
    intro l r h
    have hl0 : l.path.length = 0 := by omega
    have hL : l.path.getLast? = none := by
      have he : l.path = [] := List.length_eq_zero.mp hl0
      rw [he]; rfl
    rw [compareKeys.eq_def, specCompareKeys.eq_def]
    by_cases h2 : l.path.length < r.path.length
    · simp only [if_neg (show ¬l.path.length > r.path.length by omega), if_pos h2]
    · have hr0 : r.path.length = 0 := by omega
      have hR : r.path.getLast? = none := by
        have he : r.path = [] := List.length_eq_zero.mp hr0
        rw [he]; rfl
      simp only [if_neg (show ¬l.path.length > r.path.length by omega), if_neg h2, hL, hR]
  | succ m ih =>
    intro l r h
    rw [compareKeys.eq_def, specCompareKeys.eq_def]
    by_cases h1 : l.path.length > r.path.length
    · simp only [if_pos h1]
    · by_cases h2 : l.path.length < r.path.length
      · simp only [if_neg h1, if_pos h2]
      · have hEq : l.path.length = r.path.length := by omega
        simp only [if_neg h1, if_neg h2]
        cases hL : l.path.getLast? with
        | none => rfl
        | some le =>
          cases hR : r.path.getLast? with
          | none => cases le with | mk lk li => cases li <;> rfl
          | some re =>
            cases le with
            | mk lk li =>
              cases re with
              | mk rk ri =>
                cases li with
                | none => cases ri <;> rfl
                | some lid =>
                  cases ri with
                  | none => cases lid <;> rfl
                  | some rid =>
                    have hlNe : l.path ≠ [] := by
                      intro hc
                      rw [hc] at hL
                      simp at hL
                    have hlPos : 0 < l.path.length := List.length_pos.mpr hlNe
                    have hPar : l.path.length > 1 →
                        compareKeys ⟨l.ns, l.path.dropLast⟩ ⟨r.ns, r.path.dropLast⟩ =
                          specCompareKeys ⟨l.ns, l.path.dropLast⟩ ⟨r.ns, r.path.dropLast⟩ := by
                      intro _
                      exact ih _ _ (by simp [List.length_dropLast]; omega)
                    cases lid with
                    | int a =>
                      cases rid with
                      | int b =>
                        dsimp only
                        by_cases hab : a < b
                        · have hc : cmpInt a b = -1 := by simp [cmpInt, hab]
                          simp only [if_pos hab, hc]
                          rw [if_pos (show ((-1 : Int) ≠ 0) from by norm_num)]
                        · by_cases hba : a > b
                          · have hc : cmpInt a b = 1 := by simp [cmpInt, hab, hba]
                            simp only [if_neg hab, if_pos hba, hc]
                            rw [if_pos (show ((1 : Int) ≠ 0) from by norm_num)]
                          · have hc : cmpInt a b = 0 := by simp [cmpInt, hab, hba]
                            simp only [if_neg hab, if_neg hba, hc]
                            rw [if_neg (show ¬((0 : Int) ≠ 0) from by norm_num)]
                            by_cases hgt1 : l.path.length > 1
                            · simp only [if_pos hgt1]
                              exact hPar hgt1
                            · simp only [if_neg hgt1]
                      | str b => rfl
                    | str a =>
                      cases rid with
                      | int b => rfl
                      | str b =>
                        dsimp only
                        by_cases hab : cmpString a b ≠ 0
                        · simp only [if_pos hab]
                        · simp only [if_neg hab]
                          by_cases hgt1 : l.path.length > 1
                          · simp only [if_pos hgt1]
                            exact hPar hgt1
                          · simp only [if_neg hgt1]

/-- C8: `compareKeys` implements exactly the specified key ordering —
ancestor-chain depth first (more ancestors sorts before fewer), then leaf
id type with `Int64 < String` precedence, then the id values numerically
or lexicographically, recursing into the respective parents on an exact
tie and terminating as equal when neither key has a parent
(`specCompareKeys` is that specification, including its partiality on
keys without int64/string ids at the levels reached). -/
theorem compareKeys_matches_spec (l r : Key) :
    compareKeys l r = specCompareKeys l r :=
  compareKeys_eq_spec_aux l.path.length l r le_rfl

/-! ## C2: the value comparator and cross-kind ordering -/

/-- C2 scenario: record keys `{ns, [("K",7),("K",i)]}` for `i = 1..6`. -/
def c2Key (i : Int) : Key := ⟨"ns", [⟨"K", some (.int 7)⟩, ⟨"K", some (.int i)⟩]⟩

/-- C2 scenario: an entity whose field `F` holds the given value. -/
def c2Ent (v : Value) : Entity := ⟨[("F", .single v)]⟩

/-- C2 scenario: six records whose `F` fields hold one value of each kind,
stored in reverse kind-precedence order. -/
def c2Store : MemDs :=
  ⟨[⟨c2Key 1, c2Ent (.keyRef ⟨"ns", [⟨"R", some (.int 1)⟩]⟩)⟩,
    ⟨c2Key 2, c2Ent (.float64 2)⟩,
    ⟨c2Key 3, c2Ent (.str "s")⟩,
    ⟨c2Key 4, c2Ent (.bool true)⟩,
    ⟨c2Key 5, c2Ent (.timestamp 5)⟩,
    ⟨c2Key 6, c2Ent (.int64 6)⟩], 0⟩

/-- C2 scenario: a keys-only query over kind `K`, ordered ascending on
`F`. -/
def c2Query : Query := ⟨⟨"ns", [⟨"K", none⟩]⟩, true, [⟨"F", .asc⟩], []⟩

/-- C2 scenario: the key of record `i` as the iterator returns it (its
first path element's id was nil'd by the ancestor check's write-through;
the leaf ids still identify the records). -/
def c2ResKey (i : Int) : Key := ⟨"ns", [⟨"K", none⟩, ⟨"K", some (.int i)⟩]⟩

/-- C2: `compareValues` orders values of different kinds by the fixed
precedence `Int64 < Timestamp < Bool < String < Float64 < KeyRef` and
values of one kind numerically / chronologically / lexicographically /
`false < true` / by `compareKeys` (that is, it coincides with
`specCompareValues` everywhere); consequently the ascending keys-only
query over six entities whose `F` fields hold one value of each kind
yields their keys in exactly that kind-precedence order
(Int64, Timestamp, Bool, String, Float64, KeyRef). -/
theorem compareValues_matches_spec_and_query_order :
    (∀ l r : Value, compareValues l r = specCompareValues l r) ∧
    runKeysOnly c2Store c2Query =
      some [c2ResKey 6, c2ResKey 5, c2ResKey 4, c2ResKey 3, c2ResKey 2, c2ResKey 1] := by
  constructor
  · intro l r
    cases l <;> cases r <;>
      first
        | rfl
        | (rename_i a b; cases a <;> cases b <;> rfl)
  · rfl

/-! ## C6: order clauses and missing properties -/

/-- C6 scenario: a record with no properties at all. -/
def c6Missing : KeyEntity := ⟨⟨"ns", [⟨"K", some (.int 1)⟩]⟩, ⟨[]⟩⟩

/-- C6 scenario: a record carrying the ordered property `P`. -/
def c6Present : KeyEntity := ⟨⟨"ns", [⟨"K", some (.int 2)⟩]⟩, ⟨[("P", .single (.int64 5))]⟩⟩

/-- C6 (counterexample): the claim says a record missing the ordered
property sorts AFTER one that has it, i.e. the sorter must not place the
missing-property record first (`Less(missing, present)` would be false and
`Less(present, missing)` true).  The source does the opposite: with order
`P` ascending — and equally descending — `Less(missing, present)` is true
and `Less(present, missing)` is false, so the missing-property record
sorts BEFORE the one that has the property. -/
theorem sorter_missing_after_counterexample :
    ¬(sorterLess [⟨"P", .asc⟩] c6Missing c6Present = some false) ∧
    sorterLess [⟨"P", .asc⟩] c6Missing c6Present = some true ∧
    sorterLess [⟨"P", .desc⟩] c6Missing c6Present = some true ∧
    sorterLess [⟨"P", .asc⟩] c6Present c6Missing = some false ∧
    sorterLess [⟨"P", .desc⟩] c6Present c6Missing = some false := by
  refine ⟨by decide, rfl, rfl, rfl, rfl⟩

/-- C6 (amended): when evaluating an order clause on two records, a record
missing the ordered property sorts BEFORE a record that has that property,
for both ascending and descending directions of the clause (the source
returns from the nil-cases before ever looking at the direction). -/
theorem sorter_missing_property_sorts_first
    (o : Order) (rest : List Order) (l r : KeyEntity)
    (hname : o.name ≠ "__key__")
    (hl : findField l.entity o.name = none)
    (hr : (findField r.entity o.name).isSome) :
    sorterLess (o :: rest) l r = some true ∧
    sorterLess (o :: rest) r l = some false := by
  obtain ⟨rv, hrv⟩ := Option.isSome_iff_exists.mp hr
  constructor
  · unfold sorterLess
    rw [if_neg hname, hl, hrv]
  · unfold sorterLess
    rw [if_neg hname, hl, hrv]

/-- C6 witness: the amended theorem applied to the two concrete records. -/
theorem sorter_missing_property_sorts_first_witness :
    ((⟨"P", .asc⟩ : Order).name ≠ "__key__" ∧
     findField c6Missing.entity "P" = none ∧
     (findField c6Present.entity "P").isSome) ∧
    (sorterLess [⟨"P", .asc⟩] c6Missing c6Present = some true ∧
     sorterLess [⟨"P", .asc⟩] c6Present c6Missing = some false) :=
  ⟨⟨by decide, rfl, rfl⟩,
   sorter_missing_property_sorts_first ⟨"P", .asc⟩ [] c6Missing c6Present
     (by decide) rfl rfl⟩

/-! ## C4: transaction abort -/

theorem txCompleteKeys_keyEntities :
    ∀ (ks : List Key) (mds : MemDs) (out : MemDs × List Key),
      txCompleteKeys mds ks = some out → out.1.keyEntities = mds.keyEntities := by
  intro ks
  induction ks with
  | nil =>
    intro mds out h
    simp only [txCompleteKeys, Option.some.injEq] at h
    rw [← h]
  | cons k rest ih =>
    intro mds out h
    unfold txCompleteKeys at h
    cases hk : k.path.getLast? with
    | none => rw [hk] at h; simp at h
    | some leaf =>
      rw [hk] at h
      dsimp only at h
      rcases Option.map_eq_some'.mp h with ⟨⟨m2, ks2⟩, hrec, hout⟩
      have h2 := ih _ _ hrec
      rw [← hout]
      dsimp only
      rw [h2]
      by_cases hid : leaf.id = none
      · rw [if_pos hid]; rfl
      · rw [if_neg hid]

theorem enqueueOps_keyEntities :
    ∀ (ops : List TxOp) (mds : MemDs) (out : MemDs × List TxOp),
      enqueueOps mds ops = some out → out.1.keyEntities = mds.keyEntities := by
  intro ops
  induction ops with
  | nil =>
    intro mds out h
    simp only [enqueueOps, Option.some.injEq] at h
    rw [← h]
  | cons op rest ih =>
    intro mds out h
    cases op with
    | putOp keys ents =>
      unfold enqueueOps at h
      rcases Option.bind_eq_some.mp h with ⟨⟨m1, ck⟩, hc, h2⟩
      rcases Option.map_eq_some'.mp h2 with ⟨⟨m2, ms⟩, hrec, hout⟩
      have e1 := txCompleteKeys_keyEntities keys mds _ hc
      have e2 := ih _ _ hrec
      rw [← hout]
      dsimp only
      rw [e2, e1]
    | delOp keys =>
      unfold enqueueOps at h
      rcases Option.map_eq_some'.mp h with ⟨⟨m2, ms⟩, hrec, hout⟩
      have e2 := ih _ _ hrec
      rw [← hout]
      dsimp only
      rw [e2]

/-- C4: when a transaction body enqueues Put/Delete operations and then
returns a non-nil error, `RunInTransaction` returns exactly that error and
applies none of the queued operations: the store's records are unchanged,
so every `Get` lookup — in particular at a key the body had deleted —
still finds the pre-transaction record. -/
theorem runInTransaction_body_error_aborts
    (mds : MemDs) (ops : List TxOp) (e : String) (out : MemDs × Option String)
    (h : RunInTransactionGo mds ⟨ops, some e⟩ = some out) :
    out.2 = some e ∧ out.1.keyEntities = mds.keyEntities ∧
    ∀ k, getOne out.1 k = getOne mds k := by
  unfold RunInTransactionGo at h
  rcases Option.bind_eq_some.mp h with ⟨⟨m1, muts⟩, henq, hrest⟩
  dsimp only at hrest
  rcases Option.some.inj hrest with hout
  have hk := enqueueOps_keyEntities ops mds _ henq
  rw [← hout]
  refine ⟨rfl, hk, fun k => ?_⟩
  unfold getOne
  rw [hk]

/-- C4 scenario: the stored entity at the deleted key. -/
def c4Ent : Entity := ⟨[("V", .single (.int64 42))]⟩

/-- C4 scenario: the key the transaction body deletes. -/
def c4Key : Key := ⟨"ns", [⟨"K", some (.int 1)⟩]⟩

/-- C4 scenario: a store holding one record at `c4Key`. -/
def c4Store : MemDs := ⟨[⟨c4Key, c4Ent⟩], 0⟩

/-- C4 witness: a body that deletes `c4Key` and returns a user error
leaves the record retrievable and returns the user error. -/
theorem runInTransaction_abort_witness :
    RunInTransactionGo c4Store ⟨[TxOp.delOp [c4Key]], some "user error"⟩ =
      some (c4Store, some "user error") ∧
    ((c4Store, (some "user error" : Option String)).2 = some "user error" ∧
     (c4Store, (some "user error" : Option String)).1.keyEntities = c4Store.keyEntities ∧
     ∀ k, getOne (c4Store, (some "user error" : Option String)).1 k = getOne c4Store k) :=
  ⟨rfl,
   runInTransaction_body_error_aborts c4Store [TxOp.delOp [c4Key]] "user error"
     (c4Store, some "user error") rfl⟩

/-! ## C9: Put validation is atomic -/

/-- The claim's notion of a malformed entities payload: not a slice, a
slice of a non-struct non-struct-pointer element type, or an interface
slice containing an element that is not a (non-nil) struct pointer. -/
def malformedEntities : EntitiesArg → Prop
  | .notSlice => True
  | .sliceOther _ => True
  | .sliceIface l => ∃ a ∈ l, entShapeOk a = false
  | .sliceStructs _ => False
  | .slicePtrs _ => False

/-- C9: a keys/entities length mismatch, or a malformed entity payload
anywhere in the batch, makes the whole `Put` call fail with an error while
leaving the store — records and id counter — exactly as it was: no record
is inserted or overwritten and no key is completed. -/
theorem put_validation_failure_is_atomic
    (mds : MemDs) (keys : List Key) (ents : EntitiesArg)
    (h : keys.length ≠ entitiesLen ents ∨ malformedEntities ents) :
    ∃ msg, PutGo mds keys ents = some (mds, .error msg) := by
  have hv : ∃ msg, verifyKeysValues keys ents = some msg := by
    cases ents with
    | notSlice => exact ⟨_, rfl⟩
    | sliceOther n =>
      unfold verifyKeysValues
      dsimp only
      by_cases hlen : keys.length ≠ entitiesLen (EntitiesArg.sliceOther n)
      · rw [if_pos hlen]
        exact ⟨_, rfl⟩
      · rw [if_neg hlen]
        exact ⟨_, rfl⟩
    | sliceStructs l =>
      rcases h with hlen | hmal
      · unfold verifyKeysValues
        dsimp only
        rw [if_pos hlen]
        exact ⟨_, rfl⟩
      · exact absurd hmal (by simp [malformedEntities])
    | slicePtrs l =>
      rcases h with hlen | hmal
      · unfold verifyKeysValues
        dsimp only
        rw [if_pos hlen]
        exact ⟨_, rfl⟩
      · exact absurd hmal (by simp [malformedEntities])
    | sliceIface l =>
      unfold verifyKeysValues
      dsimp only
      by_cases hlen : keys.length ≠ entitiesLen (EntitiesArg.sliceIface l)
      · rw [if_pos hlen]
        exact ⟨_, rfl⟩
      · rw [if_neg hlen]
        rcases h with hlen' | hmal
        · exact absurd hlen' hlen
        · obtain ⟨a, ha, hbad⟩ := hmal
          have hall : l.all entShapeOk = false := by
            rcases hAll : l.all entShapeOk with _ | _
            · rfl
            · have := (List.all_eq_true.mp hAll) a ha
              rw [hbad] at this
              cases this
          rw [hall]
          exact ⟨_, rfl⟩
  obtain ⟨msg, hm⟩ := hv
  refine ⟨msg, ?_⟩
  unfold PutGo
  rw [hm]

/-- C9 witness: a one-key `Put` whose `[]interface{}` payload holds a
non-struct element fails with an error and leaves the store unchanged. -/
theorem put_validation_failure_witness :
    (([⟨"ns", [⟨"K", some (.int 1)⟩]⟩] : List Key).length ≠
        entitiesLen (.sliceIface [.otherV]) ∨
      malformedEntities (.sliceIface [.otherV])) ∧
    ∃ msg, PutGo ⟨[], 0⟩ [⟨"ns", [⟨"K", some (.int 1)⟩]⟩] (.sliceIface [.otherV]) =
      some (⟨[], 0⟩, .error msg) :=
  ⟨Or.inr ⟨.otherV, by simp, rfl⟩,
   put_validation_failure_is_atomic ⟨[], 0⟩ [⟨"ns", [⟨"K", some (.int 1)⟩]⟩]
     (.sliceIface [.otherV]) (Or.inr ⟨.otherV, by simp, rfl⟩)⟩

/-! ## C7: filters over multi-valued properties -/

/-- Against a filter value of a supported kind (`int64`, `float64` or
`string`), a comparison never panics: the cross-kind branch of
`compareValues` never reads payloads and the same-kind branches for these
kinds are total. -/
theorem isComparisonTrue_total
    (v : Value) (op : FilterOp) (val : Value)
    (hval : validateFilterValue val = true) :
    ∃ b, isComparisonTrue v op val = some b := by
  have hc : ∃ c, compareValues v val = some c := by
    cases val with
    | int64 b => cases v <;> exact ⟨_, rfl⟩
    | float64 b => cases v <;> exact ⟨_, rfl⟩
    | str b => cases v <;> exact ⟨_, rfl⟩
    | bool b => simp [validateFilterValue] at hval
    | timestamp b => simp [validateFilterValue] at hval
    | keyRef b => simp [validateFilterValue] at hval
  obtain ⟨c, hcc⟩ := hc
  unfold isComparisonTrue
  rw [hcc]
  exact ⟨_, rfl⟩

/-- With a supported filter value, the slice-filter loop passes exactly
when some element satisfies the comparison. -/
theorem anyComparison_some_true_iff
    (vs : List Value) (op : FilterOp) (val : Value)
    (hval : validateFilterValue val = true) :
    (anyComparison vs op val = some true ↔
      ∃ v ∈ vs, isComparisonTrue v op val = some true) := by
  induction vs with
  | nil => simp [anyComparison]
  | cons v rest ih =>
    obtain ⟨b, hb⟩ := isComparisonTrue_total v op val hval
    unfold anyComparison
    rw [hb]
    cases b with
    | false =>
      simp only [Option.some_bind, Bool.false_eq_true, if_false]
      rw [ih]
      constructor
      · rintro ⟨w, hw, hws⟩
        exact ⟨w, List.mem_cons_of_mem v hw, hws⟩
      · rintro ⟨w, hw, hws⟩
        rcases List.mem_cons.mp hw with hveq | hwr
        · rw [hveq] at hws
          rw [hws] at hb
          cases Option.some.inj hb
        · exact ⟨w, hwr, hws⟩
    | true =>
      simp only [Option.some_bind, if_true]
      constructor
      · intro _
        exact ⟨v, List.mem_cons_self v rest, hb⟩
      · intro _
        trivial

/-- C7 scenario: the entity with `IntValues = [1,2,3,4]`. -/
def c7Entity : Entity :=
  ⟨[("IntValues", .array [.int64 1, .int64 2, .int64 3, .int64 4])]⟩

/-- C7 scenario: the entity's key, `Kind/3`. -/
def c7Key : Key := ⟨"ns", [⟨"Kind", some (.int 3)⟩]⟩

/-- C7 scenario: a store holding just that entity. -/
def c7Store : MemDs := ⟨[⟨c7Key, c7Entity⟩], 0⟩

/-- C7 scenario: query of kind `Kind` with filter `IntValues > 2` and
order `IntValues asc`. -/
def c7Query : Query :=
  ⟨⟨"ns", [⟨"Kind", none⟩]⟩, false, [⟨"IntValues", .asc⟩],
   [⟨"IntValues", .gt, .int64 2⟩]⟩

/-- C7 scenario: the record as `Run` returns it (the ancestor check nil'd
the stored key's id on the way). -/
def c7Result : KeyEntity := ⟨⟨"ns", [⟨"Kind", none⟩]⟩, c7Entity⟩

/-- C7: a filter over a list-valued field passes iff at least one element
satisfies the comparison; a scalar field is compared directly; a filter
naming an absent field never excludes the record; and concretely the
entity with `IntValues = [1,2,3,4]` is included by the query with filter
`IntValues > 2` and order `IntValues asc`. -/
theorem filter_multivalue_semantics :
    (∀ (k : Key) (ent : Entity) (f : Filter) (vs : List Value),
      f.name ≠ "__key__" → validateFilterValue f.value = true →
      findField ent f.name = some (.array vs) →
      (applyFilter k ent f = some true ↔
        ∃ v ∈ vs, isComparisonTrue v f.op f.value = some true)) ∧
    (∀ (k : Key) (ent : Entity) (f : Filter) (v : Value),
      f.name ≠ "__key__" → validateFilterValue f.value = true →
      findField ent f.name = some (.single v) →
      applyFilter k ent f = isComparisonTrue v f.op f.value) ∧
    (∀ (k : Key) (ent : Entity) (f : Filter),
      f.name ≠ "__key__" → validateFilterValue f.value = true →
      findField ent f.name = none →
      applyFilter k ent f = some true) ∧
    RunGo c7Store c7Query = some (⟨[c7Result], 0⟩, [c7Result]) := by
  refine ⟨?_, ?_, ?_, rfl⟩
  · intro k ent f vs hname hval hfield
    unfold applyFilter
    rw [hval]
    simp only [Bool.not_true, Bool.false_eq_true, if_false]
    rw [if_neg hname, hfield]
    exact anyComparison_some_true_iff vs f.op f.value hval
  · intro k ent f v hname hval hfield
    unfold applyFilter
    rw [hval]
    simp only [Bool.not_true, Bool.false_eq_true, if_false]
    rw [if_neg hname, hfield]
  · intro k ent f hname hval hfield
    unfold applyFilter
    rw [hval]
    simp only [Bool.not_true, Bool.false_eq_true, if_false]
    rw [if_neg hname, hfield]

/-- C7 witness: the list-filter equivalence applied to the scenario's
entity and filter, with its hypotheses discharged concretely. -/
theorem filter_multivalue_semantics_witness :
    (("IntValues" : String) ≠ "__key__" ∧
     validateFilterValue (Value.int64 2) = true ∧
     findField c7Entity "IntValues" =
       some (.array [.int64 1, .int64 2, .int64 3, .int64 4])) ∧
    (applyFilter c7Key c7Entity ⟨"IntValues", .gt, .int64 2⟩ = some true ↔
      ∃ v ∈ [Value.int64 1, Value.int64 2, Value.int64 3, Value.int64 4],
        isComparisonTrue v .gt (.int64 2) = some true) :=
  ⟨⟨by decide, rfl, rfl⟩,
   filter_multivalue_semantics.1 c7Key c7Entity ⟨"IntValues", .gt, .int64 2⟩
     [.int64 1, .int64 2, .int64 3, .int64 4] (by decide) rfl rfl⟩

/-! ## C5: the empty-kind `continue` skips the ancestor check and filters -/

/-- C5 scenario: a record under kind `K` whose field `F` is 1. -/
def c5Record : KeyEntity :=
  ⟨⟨"ns", [⟨"K", some (.int 1)⟩]⟩, ⟨[("F", .single (.int64 1))]⟩⟩

/-- C5 scenario: a store holding just that record. -/
def c5Store : MemDs := ⟨[c5Record], 0⟩

/-- C5 scenario: the filter `F = 5`, which the record does not satisfy. -/
def c5Filter : Filter := ⟨"F", .eq, .int64 5⟩

/-- C5 scenario: a query whose root's leaf kind is empty, carrying the
failing filter; its root is also not an ancestor of the record. -/
def c5Query : Query := ⟨⟨"ns", [⟨"", none⟩]⟩, false, [], [c5Filter]⟩

/-- C5 (divergence at a concrete input): with an empty root leaf kind the
claim says the ancestor condition and the filters are still evaluated —
here both exclude the record (`isAncestor` is false because the kinds of
the truncated paths differ, and the filter `F = 5` fails on `F = 1`) —
yet `Run` returns the record anyway, because the source's empty-kind
`continue` skips the ancestor check and every filter for the record. -/
theorem run_empty_kind_skips_ancestor_and_filters :
    RunGo c5Store c5Query = some (c5Store, [c5Record]) ∧
    (isAncestorGo c5Query.root c5Record.key).map Prod.fst = some false ∧
    applyFilter c5Record.key c5Record.entity c5Filter = some false :=
  ⟨rfl, rfl, rfl⟩

/-! ## C3: AllocateKeys and the shared backing array -/

/-- C3 scenario: the parent key `{ns, [("Parent",2),("Test",Incomplete)]}`
(the repository's own `TestAllocateKeys` input). -/
def c3Parent : Key := ⟨"ns", [⟨"Parent", some (.int 2)⟩, ⟨"Test", none⟩]⟩

/-- C3 scenario: the single key value all ten "allocated" keys share —
leaf id 10, the counter's final value. -/
def c3AllKey : Key := ⟨"ns", [⟨"Parent", some (.int 2)⟩, ⟨"Test", some (.int 10)⟩]⟩

/-- C3 (divergence at a concrete input): `AllocateKeys(parent, 10)` on a
fresh store returns ten keys that are all equal — each carries the leaf
id 10 — rather than ten pairwise-distinct, strictly increasing ids,
because `keys[i] = parent` shares one backing array across all returned
keys and the caller's parent, and each loop iteration overwrites the same
leaf slot.  The caller's parent is mutated to the same value. -/
theorem allocateKeys_duplicate_ids :
    AllocateKeysGo ⟨[], 0⟩ c3Parent 10 =
      some (List.replicate 10 c3AllKey, c3AllKey, ⟨[], 10⟩) ∧
    ¬(List.replicate 10 c3AllKey).Pairwise (· ≠ ·) ∧
    c3AllKey ≠ c3Parent :=
  ⟨rfl, by decide, by decide⟩

/-! ## C10: Run and AllocateKeys are not read-only -/

/-- C10 scenario: the stored entity. -/
def c10Ent : Entity := ⟨[("V", .single (.int64 1))]⟩

/-- C10 scenario: the record's key before `Run`. -/
def c10KeyBefore : Key := ⟨"ns", [⟨"K", some (.int 1)⟩]⟩

/-- C10 scenario: the same stored key after `Run` — its leaf id has been
nil'd by the ancestor check's write-through. -/
def c10KeyAfter : Key := ⟨"ns", [⟨"K", none⟩]⟩

/-- C10 scenario: a store holding one record at `K/1`. -/
def c10Store : MemDs := ⟨[⟨c10KeyBefore, c10Ent⟩], 0⟩

/-- C10 scenario: a filterless, orderless query over kind `K`. -/
def c10Query : Query := ⟨⟨"ns", [⟨"K", none⟩]⟩, false, [], []⟩

/-- C10 (divergence at a concrete input): running a plain kind query
nils the stored record's leaf id through the slice backing array shared
between `isAncestor`'s argument and the store — the post-`Run` store
differs from the pre-`Run` store — and `AllocateKeys` likewise overwrites
the caller-supplied parent key's leaf id. -/
theorem run_and_allocate_mutate_stored_keys :
    RunGo c10Store c10Query =
      some (⟨[⟨c10KeyAfter, c10Ent⟩], 0⟩, [⟨c10KeyAfter, c10Ent⟩]) ∧
    c10KeyAfter ≠ c10KeyBefore ∧
    AllocateKeysGo ⟨[], 0⟩ ⟨"ns", [⟨"P", none⟩]⟩ 1 =
      some ([⟨"ns", [⟨"P", some (.int 1)⟩]⟩], ⟨"ns", [⟨"P", some (.int 1)⟩]⟩, ⟨[], 1⟩) ∧
    (⟨"ns", [⟨"P", some (.int 1)⟩]⟩ : Key) ≠ ⟨"ns", [⟨"P", none⟩]⟩ :=
  ⟨rfl, by decide, rfl, by decide⟩

end Memds
